import Mathlib

/-!
Verification of the `quart_github` OAuth/API client (`quart_github.py`).

We give a shallow embedding of the pure logic of the module:

* JSON values (`Json`) as the payloads returned by `response.json()`;
* HTTP responses (`Response`) with status code, content type, decoded JSON
  body and the URL of the `next` relation of the `Link` header;
* the response classifiers `is_valid_response` / `is_json_response`;
* URL resolution (`get_resource_url`), header handling (`pop_headers`,
  dictionary assignment `setHeader`), authorization-header resolution
  (`get_access_token`, `get_authorization_header`);
* `raw_request` and the paginating `request` loop, with the network modelled
  as a pure function `fetch : method → url → Response` inside an `Env`,
  Python exceptions modelled by `Except PyError`, and the registered
  access-token getter modelled as `Option (Nat → String)` applied to an
  explicit invocation counter (so we can count getter invocations);
* `urlencode` / `parse_qs` (as used by `authorize` and `_handle_response`)
  and the `authorized_handler` wrapper.
-/

namespace QuartGithub

/-- Decoded JSON values, the result of `response.json()`.  Objects are
association lists of fields in insertion order. -/
inductive Json where
  | null : Json
  | bool (b : Bool) : Json
  | num (n : Int) : Json
  | str (s : String) : Json
  | arr (xs : List Json) : Json
  | obj (fields : List (String × Json)) : Json
deriving Repr

/-- An HTTP response as seen by the client: status code, `Content-Type`
header, the decoded JSON body (meaningful when the content type is JSON),
and `response.links.get("next")["url"]` — the URL of the `next` relation
of the `Link` header, when present. -/
structure Response where
  status_code : Nat
  content_type : String
  body : Json
  next_link : Option String
deriving Repr

/-- `is_valid_response`: status code in the range 200..299. -/
def is_valid_response (r : Response) : Bool :=
  decide (200 ≤ r.status_code) && decide (r.status_code ≤ 299)

/-- Whether the second character list is an initial segment of the first
(kernel-reducible counterpart of `String.startsWith`). -/
def startsWithChars : List Char → List Char → Bool
  | _, [] => true
  | [], _ :: _ => false
  | a :: as, b :: bs => a == b && startsWithChars as bs

/-- Python `str.startswith` on strings. -/
def strStartsWith (s p : String) : Bool :=
  startsWithChars s.toList p.toList

/-- Python slicing `s[:-1]` (drop the last character; kernel-reducible
counterpart of `String.dropRight 1`). -/
def strDropLast (s : String) : String :=
  String.mk (s.toList.dropLast)

/-- `is_json_response`: the `Content-Type` is `application/json`, possibly
with parameters. -/
def is_json_response (r : Response) : Bool :=
  r.content_type == "application/json" || strStartsWith r.content_type "application/json;"

/-- `GitHub._get_resource_url`: absolute `http(s)` resources are used
verbatim; a resource starting with `/` is appended to the base URL with the
base's last character dropped; anything else is appended directly. -/
def get_resource_url (base_url resource : String) : String :=
  if strStartsWith resource "http://" || strStartsWith resource "https://" then
    resource
  else if strStartsWith resource "/" then
    strDropLast base_url ++ resource
  else
    base_url ++ resource

/-- Python exceptions that the embedded code can raise.  `gitHubError r` is
`GitHubError(response)`; `typeError` / `keyError` are the `TypeError` /
`KeyError` that Python raises on shape-mismatched `+=` / missing-key
subscription; `notImplementedError` is the `NotImplementedError` of the
default `get_access_token`; `outOfFuel` marks a pagination loop that did not
terminate within the given fuel (it is a modelling artefact, not a Python
exception). -/
inductive PyError where
  | gitHubError (r : Response) : PyError
  | typeError : PyError
  | keyError : PyError
  | notImplementedError : PyError
  | outOfFuel : PyError
deriving Repr

/-- An outgoing HTTP request as handed to `session.request`. -/
structure HttpRequest where
  method : String
  url : String
  headers : List (String × String)
deriving Repr

/-- The client's environment: configured base URL, the network (a pure
function from method and URL to the response the server returns), and the
registered access-token getter.  The getter takes the index of the
invocation (0-based) so the model can express that each invocation may
return a fresh token; `none` means no getter was registered. -/
structure Env where
  base_url : String
  fetch : String → String → Response
  getter : Option (Nat → String)

/-- `GitHub._pop_headers`: a missing or `None` headers argument becomes the
empty dictionary; otherwise the caller's dictionary is copied. -/
def pop_headers (headers : Option (List (String × String))) : List (String × String) :=
  match headers with
  | none => []
  | some hs => hs

/-- Python dictionary assignment `d[k] = v` on an association list:
replaces the value of the first matching key, else appends. -/
def setHeader : List (String × String) → String → String → List (String × String)
  | [], k, v => [(k, v)]
  | (k₀, v₀) :: rest, k, v =>
    if k₀ = k then (k, v) :: rest else (k₀, v₀) :: setHeader rest k v

/-- `GitHub.get_access_token`: the default raises `NotImplementedError`; a
registered getter is invoked with the next invocation index and bumps the
counter. -/
def get_access_token (getter : Option (Nat → String)) (count : Nat) :
    Except PyError (String × Nat) :=
  match getter with
  | none => .error .notImplementedError
  | some g => .ok (g count, count + 1)

/-- `GitHub._get_authorization_header`: an explicitly supplied access token
is used as-is, otherwise the registered getter is consulted; the result is
the header value `token …`. -/
def get_authorization_header (getter : Option (Nat → String))
    (access_token : Option String) (count : Nat) : Except PyError (String × Nat) :=
  match access_token with
  | some t => .ok ("token " ++ t, count)
  | none => do
    let (t, c) ← get_access_token getter count
    .ok ("token " ++ t, c)

/-- `GitHub.raw_request`: pops the caller's headers, resolves the
authorization header (overwriting any caller-supplied `Authorization`
entry), resolves the URL and issues the request.  Returns the server's
response, the outgoing request, and the updated getter-invocation
counter. -/
def raw_request (env : Env) (method resource : String) (access_token : Option String)
    (headers : Option (List (String × String))) (count : Nat) :
    Except PyError (Response × HttpRequest × Nat) := do
  let hs := pop_headers headers
  let (auth, c) ← get_authorization_header env.getter access_token count
  let hs := setHeader hs "Authorization" auth
  let url := get_resource_url env.base_url resource
  .ok (env.fetch method url, ⟨method, url, hs⟩, c)

/-- Association-list lookup used for Python's `'items' in body` /
`body['items']` on decoded JSON objects. -/
def jsonLookup (fields : List (String × Json)) (k : String) : Option Json :=
  match fields with
  | [] => none
  | (k₀, v) :: rest => if k₀ = k then some v else jsonLookup rest k

/-- Python dictionary assignment on a JSON object's fields. -/
def jsonSet : List (String × Json) → String → Json → List (String × Json)
  | [], k, v => [(k, v)]
  | (k₀, v₀) :: rest, k, v =>
    if k₀ = k then (k, v) :: rest else (k₀, v₀) :: jsonSet rest k v

/-- One merge step of the pagination loop of `GitHub.request`:

* `body` a list: `result += body` — list concatenation when `result` is a
  list, a `TypeError` otherwise;
* `body` a dict containing `items`: `result['items'] += body['items']` —
  subscripting a non-dict `result` is a `TypeError`, a dict without
  `items` a `KeyError`; `+=` concatenates two lists or two strings and adds
  two numbers, and is a `TypeError` on other combinations;
* anything else: `raise GitHubError(response)`. -/
def mergePage (resp : Response) (result body : Json) : Except PyError Json :=
  match body with
  | .arr xs =>
    match result with
    | .arr ys => .ok (.arr (ys ++ xs))
    | _ => .error .typeError
  | .obj bodyFields =>
    match jsonLookup bodyFields "items" with
    | none => .error (.gitHubError resp)
    | some bitems =>
      match result with
      | .obj resFields =>
        match jsonLookup resFields "items" with
        | none => .error .keyError
        | some ritems =>
          match ritems, bitems with
          | .arr rs, .arr bs => .ok (.obj (jsonSet resFields "items" (.arr (rs ++ bs))))
          | .str a, .str b => .ok (.obj (jsonSet resFields "items" (.str (a ++ b))))
          | .num a, .num b => .ok (.obj (jsonSet resFields "items" (.num (a + b))))
          | _, _ => .error .typeError
      | _ => .error .typeError
  | _ => .error (.gitHubError resp)

/-- The `while all_pages and response.links.get('next')` loop of
`GitHub.request`.  `sent` is the trace of (request, response) pairs issued
so far, `count` the getter-invocation counter.  Fuel bounds the number of
further pages; it is consumed only when a page is actually fetched, so a
page without a `next` link terminates the loop at any fuel. -/
def paginate (env : Env) (method : String) (all_pages : Bool)
    (access_token : Option String) (headers : Option (List (String × String))) :
    Nat → Json → Response → List (HttpRequest × Response) → Nat →
    Except PyError (Json × List (HttpRequest × Response) × Nat)
  | fuel, result, response, sent, count =>
    if all_pages then
      match response.next_link with
      | none => .ok (result, sent, count)
      | some url =>
        match fuel with
        | 0 => .error .outOfFuel
        | fuel' + 1 => do
          let (resp, req, c) ← raw_request env method url access_token headers count
          if !is_valid_response resp || !is_json_response resp then
            .error (.gitHubError resp)
          else do
            let result' ← mergePage resp result resp.body
            paginate env method all_pages access_token headers fuel' result' resp
              (sent ++ [(req, resp)]) c
    else .ok (result, sent, count)

/-- The two possible results of `GitHub.request`: a decoded (possibly
aggregated) JSON value, or the raw response when the content type is not
JSON. -/
inductive ApiResult where
  | json (v : Json) : ApiResult
  | raw (r : Response) : ApiResult
deriving Repr

/-- `GitHub.request`: issues the first request, raises `GitHubError` on an
invalid status, decodes and paginates JSON responses, and returns non-JSON
responses raw.  Returns the result together with the trace of issued
(request, response) pairs and the final getter-invocation counter. -/
def request (env : Env) (fuel : Nat) (method resource : String) (all_pages : Bool)
    (access_token : Option String) (headers : Option (List (String × String))) :
    Except PyError (ApiResult × List (HttpRequest × Response) × Nat) := do
  let (resp, req, c) ← raw_request env method resource access_token headers 0
  if !is_valid_response resp then
    .error (.gitHubError resp)
  else if is_json_response resp then do
    let (v, sent, c') ← paginate env method all_pages access_token headers fuel
      resp.body resp [(req, resp)] c
    .ok (.json v, sent, c')
  else
    .ok (.raw resp, [(req, resp)], c)

/-- The hexadecimal digit (uppercase) for `n < 16`. -/
def hexDigit (n : Nat) : Char :=
  if n < 10 then Char.ofNat (48 + n) else Char.ofNat (55 + n)

/-- `%XX` percent-encoding of one byte value. -/
def percentByte (n : Nat) : String :=
  "%" ++ String.singleton (hexDigit (n / 16)) ++ String.singleton (hexDigit (n % 16))

/-- The UTF-8 bytes of a code point, as natural numbers. -/
def utf8Bytes (n : Nat) : List Nat :=
  if n < 128 then [n]
  else if n < 2048 then [192 + n / 64, 128 + n % 64]
  else if n < 65536 then [224 + n / 4096, 128 + n / 64 % 64, 128 + n % 64]
  else [240 + n / 262144, 128 + n / 4096 % 64, 128 + n / 64 % 64, 128 + n % 64]

/-- The characters `urllib.parse.quote_plus` never encodes: ASCII letters,
digits and `_ . - ~`. -/
def isAlwaysSafe (c : Char) : Bool :=
  c.isAlpha || c.isDigit || c = '_' || c = '.' || c = '-' || c = '~'

/-- Concatenation of a list of strings (kernel-reducible `String.join`). -/
def concatStrings (ss : List String) : String :=
  match ss with
  | [] => ""
  | s :: rest => s ++ concatStrings rest

/-- `urllib.parse.quote_plus`: safe characters kept, space becomes `+`,
everything else percent-encoded byte by byte. -/
def quote_plus (s : String) : String :=
  concatStrings (s.toList.map fun c =>
    if isAlwaysSafe c then String.singleton c
    else if c = ' ' then "+"
    else concatStrings ((utf8Bytes c.toNat).map percentByte))

/-- `&`-separated concatenation (kernel-reducible `String.intercalate "&"`). -/
def ampJoin : List String → String
  | [] => ""
  | [s] => s
  | s :: rest => s ++ "&" ++ ampJoin rest

/-- `urllib.parse.urlencode` over an insertion-ordered dictionary. -/
def urlencode (params : List (String × String)) : String :=
  ampJoin (params.map fun p => quote_plus p.1 ++ "=" ++ quote_plus p.2)

/-- The value of a hexadecimal digit character, if it is one. -/
def hexVal (c : Char) : Option Nat :=
  if '0' ≤ c ∧ c ≤ '9' then some (c.toNat - 48)
  else if 'A' ≤ c ∧ c ≤ 'F' then some (c.toNat - 55)
  else if 'a' ≤ c ∧ c ≤ 'f' then some (c.toNat - 87)
  else none

/-- Percent-decoding pass of `urllib.parse.unquote`: a valid `%XX` escape
is decoded (the model decodes each escape to the corresponding code point,
which agrees with Python on ASCII data); an invalid escape keeps the `%`
verbatim and decoding continues right after it.  The first argument is
recursion fuel; any fuel at least the list's length gives the decoding
(and smaller fuel is never used). -/
def percentDecodeAux : Nat → List Char → List Char
  | _, [] => []
  | 0, rest => rest
  | fuel + 1, c :: rest =>
    if c = '%' then
      match rest with
      | a :: b :: rest2 =>
        match hexVal a, hexVal b with
        | some ha, some hb => Char.ofNat (16 * ha + hb) :: percentDecodeAux fuel rest2
        | _, _ => '%' :: percentDecodeAux fuel rest
      | _ => '%' :: percentDecodeAux fuel rest
    else c :: percentDecodeAux fuel rest

/-- `urllib.parse.unquote_plus`: every `+` becomes a space, then percent
escapes are decoded. -/
def unquote_plus (s : String) : String :=
  let cs := s.toList.map fun c => if c = '+' then ' ' else c
  String.mk (percentDecodeAux cs.length cs)

/-- Python `str.split(sep)` on a character list for a one-character
separator. -/
def splitOnChar (sep : Char) : List Char → List (List Char)
  | [] => [[]]
  | c :: rest =>
    if c == sep then [] :: splitOnChar sep rest
    else
      match splitOnChar sep rest with
      | [] => [[c]]
      | g :: gs => (c :: g) :: gs

/-- Python `str.split(sep, 1)`: split at the first occurrence of the
separator, or `none` when it does not occur. -/
def splitAtFirst (sep : Char) : List Char → Option (List Char × List Char)
  | [] => none
  | c :: rest =>
    if c == sep then some ([], rest)
    else
      match splitAtFirst sep rest with
      | none => none
      | some (k, v) => some (c :: k, v)

/-- `urllib.parse.parse_qs` flattened to the ordered list of (name, value)
pairs: fields are split on `&`, chunks without `=` and blank values are
dropped (`keep_blank_values` is false), names and values are
plus-and-percent decoded. -/
def parse_qs_pairs (s : String) : List (String × String) :=
  (splitOnChar '&' s.toList).filterMap fun chunk =>
    match splitAtFirst '=' chunk with
    | none => none
    | some (k, v) =>
      if v.isEmpty then none
      else some (unquote_plus (String.mk k), unquote_plus (String.mk v))

/-- First value of a key in an association list of strings. -/
def assocFind (pairs : List (String × String)) (k : String) : Option String :=
  match pairs with
  | [] => none
  | (k₀, v) :: rest => if k₀ = k then some v else assocFind rest k

/-- Whether a key occurs in an association list (`'code' in request.args`). -/
def assocHas (pairs : List (String × String)) (k : String) : Bool :=
  (assocFind pairs k).isSome

/-- A character that query-string encoding and decoding leave untouched:
not a separator (`&`, `=`), not an escape introducer (`%`), not an encoded
space (`+`). -/
def plainChar (c : Char) : Bool :=
  !(c == '&' || c == '=' || c == '%' || c == '+')

/-- A string made only of plain characters. -/
def plainStr (s : String) : Bool :=
  s.toList.all plainChar

/-- A query-string body built from plain (name, value) fields, as the
GitHub token endpoint produces: `name=value` chunks joined by `&`. -/
def formEncodePlain (fields : List (String × String)) : String :=
  ampJoin (fields.map fun p => p.1 ++ "=" ++ p.2)

/-- Python truthiness of a string: the empty string is falsy
(kernel-reducible counterpart of `String.isEmpty`). -/
def strIsEmpty (s : String) : Bool :=
  s.toList.isEmpty

/-- The client configuration taken from the app config in `init_app`. -/
structure Config where
  client_id : String
  client_secret : String
  base_url : String
  auth_url : String

/-- The parameter dictionary built by `GitHub.authorize`: `client_id`
always, then `scope`, `redirect_uri` and `state` — each added only when
truthy (supplied and non-empty), in that insertion order. -/
def authorize_params (cfg : Config) (scope redirect_uri state : Option String) :
    List (String × String) :=
  [("client_id", cfg.client_id)]
    ++ (match scope with
        | some s => if strIsEmpty s then [] else [("scope", s)]
        | none => [])
    ++ (match redirect_uri with
        | some r => if strIsEmpty r then [] else [("redirect_uri", r)]
        | none => [])
    ++ (match state with
        | some st => if strIsEmpty st then [] else [("state", st)]
        | none => [])

/-- The redirect URL built by `GitHub.authorize`. -/
def authorize_url (cfg : Config) (scope redirect_uri state : Option String) : String :=
  cfg.auth_url ++ "authorize?" ++ urlencode (authorize_params cfg scope redirect_uri state)

/-- Token extraction of `GitHub._handle_response` from the token endpoint's
response body: `parse_qs(response.content).get(b'access_token', [None])[0]`,
i.e. the first `access_token` value if any, else `None`. -/
def handle_response_token (content : String) : Option String :=
  assocFind (parse_qs_pairs content) "access_token"

/-- A POST issued to the token endpoint: URL and form parameters. -/
structure PostCall where
  url : String
  params : List (String × String)

/-- `GitHub._handle_response`: POSTs `code`, `client_id`, `client_secret`
to `auth_url + 'access_token'` and extracts the `access_token` field of the
query-string-encoded response body.  The network is a pure function `post`
from the call to the response body.  Returns the token (or `none`)
together with the trace of POSTs issued. -/
def handle_response (cfg : Config) (post : PostCall → String)
    (reqArgs : List (String × String)) : Option String × List PostCall :=
  let params := [("code", (assocFind reqArgs "code").getD ""),
                 ("client_id", cfg.client_id),
                 ("client_secret", cfg.client_secret)]
  let call : PostCall := ⟨cfg.auth_url ++ "access_token", params⟩
  (handle_response_token (post call), [call])

/-- The wrapper produced by `GitHub.authorized_handler` applied to a
continuation `f`: when the request's query has a `code` parameter the code
is exchanged via `_handle_response`, otherwise `_handle_invalid_response`
(which just returns `None`) is used; either way the continuation is applied
to the resolved value.  Returns the continuation's result and the trace of
token-endpoint POSTs. -/
def authorized_decorated {α : Type} (cfg : Config) (post : PostCall → String)
    (reqArgs : List (String × String)) (f : Option String → α) : α × List PostCall :=
  if assocHas reqArgs "code" then
    let (tok, calls) := handle_response cfg post reqArgs
    (f tok, calls)
  else
    (f none, [])

end QuartGithub

namespace QuartGithub

/-- `authorize_params` keeps an optional field exactly when it is supplied
and truthy (non-empty); this is the value it then carries. -/
def optTruthy (o : Option String) : Option String :=
  match o with
  | some s => if strIsEmpty s then none else some s
  | none => none

/-- Last page of the three-page chain of the spec's pagination example:
body `[5]`, no `next` link. -/
def page3 : Response :=
  ⟨200, "application/json", .arr [.num 5], none⟩

/-- Middle page of the example chain: body `[3,4]`, `next` pointing at the
third page. -/
def page2 : Response :=
  ⟨200, "application/json", .arr [.num 3, .num 4], some "https://api.github.com/items?page=3"⟩

/-- First page of the example chain: body `[1,2]`, `next` pointing at the
second page. -/
def page1 : Response :=
  ⟨200, "application/json", .arr [.num 1, .num 2], some "https://api.github.com/items?page=2"⟩

/-- A server serving the three-page chain, with a registered token getter
that returns a fresh token on every invocation. -/
def chainEnv : Env :=
  ⟨"https://api.github.com/",
   fun _ url =>
     if url = "https://api.github.com/items?page=2" then page2
     else if url = "https://api.github.com/items?page=3" then page3
     else page1,
   some fun i => String.mk (List.replicate (i + 1) 'g')⟩

/-- A 404 response with a JSON error body. -/
def notFound : Response :=
  ⟨404, "application/json", .obj [("message", .str "Not Found")], none⟩

/-- A server answering 404 to everything. -/
def notFoundEnv : Env :=
  ⟨"https://api.github.com/", fun _ _ => notFound, some fun _ => "tok"⟩

/-- A search-style page: an object carrying an `items` array, no `next`. -/
def itemsPage : Response :=
  ⟨200, "application/json", .obj [("items", .arr [.num 2])], none⟩

/-- An array page whose `next` link leads to `itemsPage`, giving a
mixed-shape pagination chain. -/
def firstArrayPage : Response :=
  ⟨200, "application/json", .arr [.num 1], some "https://api.github.com/more"⟩

/-- A server that chains an array page into an items-object page. -/
def mixedEnv : Env :=
  ⟨"https://api.github.com/",
   fun _ url => if url = "https://api.github.com/more" then itemsPage else firstArrayPage,
   none⟩

/-- A client with no registered access-token getter. -/
def noGetterEnv : Env :=
  ⟨"https://api.github.com/", fun _ _ => page3, none⟩

/-- The configuration used by the concrete examples. -/
def exampleCfg : Config :=
  ⟨"abc", "SEKRET", "https://api.github.com/", "https://github.com/login/oauth/"⟩

/-- A token endpoint answering every POST with a fixed token body. -/
def examplePost : PostCall → String :=
  fun _ => "access_token=asdf&token_type=bearer"

theorem assocFind_setHeader (hs : List (String × String)) (k v : String) :
    assocFind (setHeader hs k v) k = some v := by
  induction hs with
  | nil => simp [setHeader, assocFind]
  | cons p rest ih =>
    by_cases h : p.1 = k
    · simp [setHeader, h, assocFind]
    · simp [setHeader, h, assocFind, ih]

theorem paginate_next_none (env : Env) (method : String) (tok : Option String)
    (hdrs : Option (List (String × String))) (fuel : Nat) (result : Json)
    (resp : Response) (sent : List (HttpRequest × Response)) (count : Nat)
    (h : resp.next_link = none) :
    paginate env method true tok hdrs fuel result resp sent count = .ok (result, sent, count) := by
  cases fuel <;> simp [paginate, h]

end QuartGithub

namespace QuartGithub

theorem raw_request_some (env : Env) (method resource t : String)
    (hdrs : Option (List (String × String))) (count : Nat) :
    raw_request env method resource (some t) hdrs count =
      .ok (env.fetch method (get_resource_url env.base_url resource),
        ⟨method, get_resource_url env.base_url resource,
          setHeader (pop_headers hdrs) "Authorization" ("token " ++ t)⟩, count) := rfl

theorem raw_request_getter (env : Env) (method resource : String) (g : Nat → String)
    (hdrs : Option (List (String × String))) (count : Nat) (hg : env.getter = some g) :
    raw_request env method resource none hdrs count =
      .ok (env.fetch method (get_resource_url env.base_url resource),
        ⟨method, get_resource_url env.base_url resource,
          setHeader (pop_headers hdrs) "Authorization" ("token " ++ g count)⟩, count + 1) := by
  simp [raw_request, get_authorization_header, get_access_token, hg, Bind.bind, Except.bind]

end QuartGithub

namespace QuartGithub

inductive ArrChain (env : Env) (method : String) : Response → List (List Json) → Prop
  | nil {r : Response} : r.next_link = none → ArrChain env method r []
  | cons {r r' : Response} {url : String} {l : List Json} {rest : List (List Json)} :
      r.next_link = some url →
      env.fetch method (get_resource_url env.base_url url) = r' →
      is_valid_response r' = true →
      is_json_response r' = true →
      r'.body = .arr l →
      ArrChain env method r' rest →
      ArrChain env method r (l :: rest)

theorem paginate_step (env : Env) (method : String) (tok : Option String)
    (hdrs : Option (List (String × String))) (fuel : Nat) (result : Json)
    (resp : Response) (sent : List (HttpRequest × Response)) (count : Nat) (url : String)
    (hnext : resp.next_link = some url) :
    paginate env method true tok hdrs (fuel + 1) result resp sent count =
      (do
        let (resp2, req, c) ← raw_request env method url tok hdrs count
        if !is_valid_response resp2 || !is_json_response resp2 then
          Except.error (.gitHubError resp2)
        else do
          let result2 ← mergePage resp2 result resp2.body
          paginate env method true tok hdrs fuel result2 resp2 (sent ++ [(req, resp2)]) c) := by
  obtain ⟨sc, ct, bd, nl⟩ := resp
  simp only [Response.next_link] at hnext
  subst hnext
  rfl

theorem paginate_arrchain_token (env : Env) (method t : String)
    (hdrs : Option (List (String × String))) {resp : Response} {ls : List (List Json)}
    (hchain : ArrChain env method resp ls) :
    ∀ (acc : List Json) (sent : List (HttpRequest × Response)) (count fuel : Nat),
      ls.length ≤ fuel →
      ∃ newsent,
        paginate env method true (some t) hdrs fuel (.arr acc) resp sent count
          = .ok (.arr (acc ++ ls.flatten), sent ++ newsent, count) ∧
        newsent.length = ls.length ∧
        ∀ p ∈ newsent, assocFind p.1.headers "Authorization" = some ("token " ++ t) := by
  induction hchain with
  | nil hnone =>
    intro acc sent count fuel _
    refine ⟨[], ?_, rfl, by simp⟩
    simp [paginate_next_none _ _ _ _ _ _ _ _ _ hnone]
  | cons hnext hfetch hvalid hjson hbody hrest ih =>
    intro acc sent count fuel hfuel
    cases fuel with
    | zero => simp at hfuel
    | succ fuel' =>
      rename_i r r' url l rest
      have hfuel' : rest.length ≤ fuel' := by simpa using hfuel
      obtain ⟨ns, heq, hlen, hauth⟩ :=
        ih (acc ++ l)
          (sent ++ [(⟨method, get_resource_url env.base_url url,
            setHeader (pop_headers hdrs) "Authorization" ("token " ++ t)⟩, r')])
          count fuel' hfuel'
      refine ⟨(⟨method, get_resource_url env.base_url url,
          setHeader (pop_headers hdrs) "Authorization" ("token " ++ t)⟩, r') :: ns, ?_, ?_, ?_⟩
      · have hstep : paginate env method true (some t) hdrs (fuel' + 1) (.arr acc) r sent count
            = paginate env method true (some t) hdrs fuel' (.arr (acc ++ l)) r'
                (sent ++ [(⟨method, get_resource_url env.base_url url,
                  setHeader (pop_headers hdrs) "Authorization" ("token " ++ t)⟩, r')]) count := by
          rw [paginate_step env method (some t) hdrs fuel' (.arr acc) r sent count url hnext]
          simp [raw_request_some, hfetch, hvalid, hjson, Bind.bind, Except.bind, mergePage, hbody]
        rw [hstep, heq]
        simp
      · simp [hlen]
      · intro p hp
        rcases List.mem_cons.mp hp with h | h
        · subst h; simpa using assocFind_setHeader (pop_headers hdrs) "Authorization" ("token " ++ t)
        · exact hauth p h

end QuartGithub

namespace QuartGithub

theorem paginate_arrchain_getter (env : Env) (method : String) (g : Nat → String)
    (hdrs : Option (List (String × String))) (hg : env.getter = some g)
    {resp : Response} {ls : List (List Json)}
    (hchain : ArrChain env method resp ls) :
    ∀ (acc : List Json) (sent : List (HttpRequest × Response)) (count fuel : Nat),
      ls.length ≤ fuel →
      ∃ newsent,
        paginate env method true none hdrs fuel (.arr acc) resp sent count
          = .ok (.arr (acc ++ ls.flatten), sent ++ newsent, count + ls.length) ∧
        newsent.length = ls.length ∧
        ∀ (i : Nat) (p : HttpRequest × Response), newsent[i]? = some p →
          assocFind p.1.headers "Authorization" = some ("token " ++ g (count + i)) := by
  induction hchain with
  | nil hnone =>
    intro acc sent count fuel _
    refine ⟨[], ?_, rfl, by intro i p hp; simp at hp⟩
    simp [paginate_next_none _ _ _ _ _ _ _ _ _ hnone]
  | cons hnext hfetch hvalid hjson hbody hrest ih =>
    intro acc sent count fuel hfuel
    cases fuel with
    | zero => simp at hfuel
    | succ fuel' =>
      rename_i r r' url l rest
      have hfuel' : rest.length ≤ fuel' := by simpa using hfuel
      obtain ⟨ns, heq, hlen, hauth⟩ :=
        ih (acc ++ l)
          (sent ++ [(⟨method, get_resource_url env.base_url url,
            setHeader (pop_headers hdrs) "Authorization" ("token " ++ g count)⟩, r')])
          (count + 1) fuel' hfuel'
      refine ⟨(⟨method, get_resource_url env.base_url url,
          setHeader (pop_headers hdrs) "Authorization" ("token " ++ g count)⟩, r') :: ns, ?_, ?_, ?_⟩
      · have hstep := paginate_step env method none hdrs fuel' (.arr acc) r sent count url hnext
        rw [hstep]
        rw [raw_request_getter env method url g hdrs count hg]
        simp only [Bind.bind, Except.bind, hfetch, hvalid, hjson, Bool.not_true,
          Bool.false_or, Bool.or_self, ite_false, hbody, mergePage]
        rw [heq]
        have harith : count + 1 + rest.length = count + (rest.length + 1) := by omega
        simp [harith]
      · simp [hlen]
      · intro i p hp
        cases i with
        | zero =>
          simp at hp
          subst hp
          simpa using assocFind_setHeader (pop_headers hdrs) "Authorization" ("token " ++ g count)
        | succ j =>
          simp at hp
          have hja := hauth j p hp
          have harith : count + 1 + j = count + (j + 1) := by omega
          rw [harith] at hja
          exact hja

end QuartGithub

namespace QuartGithub

/-- C1: for a `request` with `all_pages` whose first page and chained
pages (each fetched from the previous response's `next` link) are all
valid JSON array pages, the result is the in-order concatenation of the
pages' elements; and the pagination loop stops, returning the accumulator
unchanged, exactly at a page without a `next` link (at any remaining
fuel, i.e. without fetching again). -/
theorem request_all_pages_concat (env : Env) (method resource : String) (tok : Option String)
    (hdrs : Option (List (String × String))) (fuel : Nat) (first : Response)
    (l0 : List Json) (ls : List (List Json))
    (htok : tok.isSome ∨ env.getter.isSome)
    (hfirst : env.fetch method (get_resource_url env.base_url resource) = first)
    (hvalid : is_valid_response first = true)
    (hjson : is_json_response first = true)
    (hbody : first.body = .arr l0)
    (hchain : ArrChain env method first ls)
    (hfuel : ls.length ≤ fuel) :
    (∃ sent c, request env fuel method resource true tok hdrs
        = .ok (.json (.arr (l0 ++ ls.flatten)), sent, c))
    ∧ ∀ (result : Json) (resp : Response) (sent : List (HttpRequest × Response)) (count f : Nat),
        resp.next_link = none →
        paginate env method true tok hdrs f result resp sent count = .ok (result, sent, count) := by
  constructor
  · match tok, htok with
    | some t, _ =>
      obtain ⟨ns, heq, -, -⟩ := paginate_arrchain_token env method t hdrs hchain l0
        [(⟨method, get_resource_url env.base_url resource,
          setHeader (pop_headers hdrs) "Authorization" ("token " ++ t)⟩, first)] 0 fuel hfuel
      refine ⟨[(⟨method, get_resource_url env.base_url resource,
          setHeader (pop_headers hdrs) "Authorization" ("token " ++ t)⟩, first)] ++ ns, 0, ?_⟩
      unfold request
      rw [raw_request_some]
      simp only [Bind.bind, Except.bind, hfirst, hvalid, hjson, Bool.not_true, Bool.false_or,
        ite_false, ite_true, hbody]
      rw [heq]
      rfl
    | none, htok =>
      have hg : ∃ g, env.getter = some g := by
        rcases htok with h | h
        · simp at h
        · exact Option.isSome_iff_exists.mp h
      obtain ⟨g, hg⟩ := hg
      obtain ⟨ns, heq, -, -⟩ := paginate_arrchain_getter env method g hdrs hg hchain l0
        [(⟨method, get_resource_url env.base_url resource,
          setHeader (pop_headers hdrs) "Authorization" ("token " ++ g 0)⟩, first)] 1 fuel hfuel
      refine ⟨[(⟨method, get_resource_url env.base_url resource,
          setHeader (pop_headers hdrs) "Authorization" ("token " ++ g 0)⟩, first)] ++ ns,
        1 + ls.length, ?_⟩
      unfold request
      rw [raw_request_getter env method resource g hdrs 0 hg]
      simp only [Bind.bind, Except.bind, hfirst, hvalid, hjson, Bool.not_true, Bool.false_or,
        ite_false, ite_true, hbody]
      rw [heq]
      have harith : 0 + 1 + ls.length = 1 + ls.length := by omega
      rw [harith]
      rfl
  · intro result resp sent count f hnone
    exact paginate_next_none env method tok hdrs f result resp sent count hnone

end QuartGithub

namespace QuartGithub

theorem paginate_zero_some (env : Env) (method : String) (tok : Option String)
    (hdrs : Option (List (String × String))) (result : Json) (resp : Response)
    (sent : List (HttpRequest × Response)) (count : Nat) (url : String)
    (hnext : resp.next_link = some url) :
    paginate env method true tok hdrs 0 result resp sent count = .error .outOfFuel := by
  obtain ⟨sc, ct, bd, nl⟩ := resp
  simp only [Response.next_link] at hnext
  subst hnext
  rfl

theorem paginate_all_pages_false (env : Env) (method : String) (tok : Option String)
    (hdrs : Option (List (String × String))) (fuel : Nat) (result : Json) (resp : Response)
    (sent : List (HttpRequest × Response)) (count : Nat) :
    paginate env method false tok hdrs fuel result resp sent count = .ok (result, sent, count) := by
  rw [paginate.eq_def]
  simp

theorem paginate_ok_valid (env : Env) (method : String) (tok : Option String)
    (hdrs : Option (List (String × String))) :
    ∀ (fuel : Nat) (result : Json) (resp : Response) (sent : List (HttpRequest × Response))
      (count : Nat) (v : Json) (sent' : List (HttpRequest × Response)) (c' : Nat),
      paginate env method true tok hdrs fuel result resp sent count = .ok (v, sent', c') →
      (∀ p ∈ sent, is_valid_response p.2 = true) →
      ∀ p ∈ sent', is_valid_response p.2 = true := by
  intro fuel
  induction fuel with
  | zero =>
    intro result resp sent count v sent' c' heq hsent
    cases hnl : resp.next_link with
    | none =>
      rw [paginate_next_none _ _ _ _ _ _ _ _ _ hnl] at heq
      simp only [Except.ok.injEq, Prod.mk.injEq] at heq
      obtain ⟨-, hs, -⟩ := heq
      rw [← hs]
      exact hsent
    | some url =>
      rw [paginate_zero_some _ _ _ _ _ _ _ _ _ hnl] at heq
      simp at heq
  | succ fuel ih =>
    intro result resp sent count v sent' c' heq hsent
    cases hnl : resp.next_link with
    | none =>
      rw [paginate_next_none _ _ _ _ _ _ _ _ _ hnl] at heq
      simp only [Except.ok.injEq, Prod.mk.injEq] at heq
      obtain ⟨-, hs, -⟩ := heq
      rw [← hs]
      exact hsent
    | some url =>
      rw [paginate_step _ _ _ _ _ _ _ _ _ _ hnl] at heq
      cases hra : raw_request env method url tok hdrs count with
      | error e =>
        rw [hra] at heq
        simp [Bind.bind, Except.bind] at heq
      | ok trip =>
        obtain ⟨resp2, req, c⟩ := trip
        rw [hra] at heq
        simp only [Bind.bind, Except.bind] at heq
        by_cases hv : is_valid_response resp2
        · by_cases hj : is_json_response resp2
          · simp only [hv, hj, Bool.not_true, Bool.or_self, Bool.false_or, ite_false] at heq
            cases hm : mergePage resp2 result resp2.body with
            | error e =>
              rw [hm] at heq
              simp at heq
            | ok result2 =>
              rw [hm] at heq
              refine ih result2 resp2 (sent ++ [(req, resp2)]) c v sent' c' heq ?_
              intro p hp
              rcases List.mem_append.mp hp with h | h
              · exact hsent p h
              · simp at h
                rw [h]
                exact hv
          · simp [hv, hj] at heq
        · simp [hv] at heq

end QuartGithub

namespace QuartGithub

theorem raw_request_none_getter_none (env : Env) (method resource : String)
    (hdrs : Option (List (String × String))) (count : Nat) (hg : env.getter = none) :
    raw_request env method resource none hdrs count = .error .notImplementedError := by
  simp [raw_request, get_authorization_header, get_access_token, hg, Bind.bind, Except.bind]

theorem raw_request_ok_fetch (env : Env) (method resource : String) (tok : Option String)
    (hdrs : Option (List (String × String))) (count : Nat)
    {resp : Response} {req : HttpRequest} {c : Nat}
    (h : raw_request env method resource tok hdrs count = .ok (resp, req, c)) :
    resp = env.fetch method (get_resource_url env.base_url resource) := by
  cases tok with
  | some t =>
    rw [raw_request_some] at h
    simp only [Except.ok.injEq, Prod.mk.injEq] at h
    exact h.1.symm
  | none =>
    cases hg : env.getter with
    | none =>
      rw [raw_request_none_getter_none env method resource hdrs count hg] at h
      simp at h
    | some g =>
      rw [raw_request_getter env method resource g hdrs count hg] at h
      simp only [Except.ok.injEq, Prod.mk.injEq] at h
      exact h.1.symm

/-- C2: a response with status code outside 200..299 raises
`GitHubError` carrying that response.  (a) An invalid first page makes
`request` fail with `GitHubError` of that response; (b) whenever `request`
succeeds, every response it fetched (first page and every pagination page)
was valid, so no partial merged result is ever returned past an invalid
page; (c) an invalid pagination page aborts the loop with `GitHubError` of
that page, discarding the accumulator. -/
theorem request_invalid_status_raises (env : Env) (method resource : String) (tok : Option String)
    (hdrs : Option (List (String × String))) (fuel : Nat) :
    (∀ (ap : Bool) (r : Response),
      tok.isSome ∨ env.getter.isSome →
      env.fetch method (get_resource_url env.base_url resource) = r →
      is_valid_response r = false →
      request env fuel method resource ap tok hdrs = .error (.gitHubError r))
    ∧ (∀ (ap : Bool) (v : ApiResult) (sent : List (HttpRequest × Response)) (c : Nat),
      request env fuel method resource ap tok hdrs = .ok (v, sent, c) →
      ∀ p ∈ sent, is_valid_response p.2 = true)
    ∧ (∀ (f : Nat) (result : Json) (resp : Response) (sent : List (HttpRequest × Response))
        (count : Nat) (url : String) (r : Response),
      tok.isSome ∨ env.getter.isSome →
      resp.next_link = some url →
      env.fetch method (get_resource_url env.base_url url) = r →
      is_valid_response r = false →
      paginate env method true tok hdrs (f + 1) result resp sent count
        = .error (.gitHubError r)) := by
  refine ⟨?_, ?_, ?_⟩
  · intro ap r htok hfetch hvalid
    match tok, htok with
    | some t, _ =>
      unfold request
      rw [raw_request_some]
      simp only [Bind.bind, Except.bind, hfetch, hvalid, Bool.not_false, ite_true]
    | none, htok =>
      have hg : ∃ g, env.getter = some g := by
        rcases htok with h | h
        · simp at h
        · exact Option.isSome_iff_exists.mp h
      obtain ⟨g, hg⟩ := hg
      unfold request
      rw [raw_request_getter env method resource g hdrs 0 hg]
      simp only [Bind.bind, Except.bind, hfetch, hvalid, Bool.not_false, ite_true]
  · intro ap v sent c heq
    unfold request at heq
    cases hra : raw_request env method resource tok hdrs 0 with
    | error e =>
      rw [hra] at heq
      simp [Bind.bind, Except.bind] at heq
    | ok trip =>
      obtain ⟨resp, req, c0⟩ := trip
      rw [hra] at heq
      simp only [Bind.bind, Except.bind] at heq
      by_cases hv : is_valid_response resp
      · by_cases hj : is_json_response resp
        · simp only [hv, hj, Bool.not_true, ite_false, ite_true] at heq
          cases ap with
          | true =>
            cases hp : paginate env method true tok hdrs fuel resp.body resp [(req, resp)] c0 with
            | error e =>
              rw [hp] at heq
              simp at heq
            | ok trip2 =>
              obtain ⟨v0, sent0, c1⟩ := trip2
              rw [hp] at heq
              cases heq
              refine paginate_ok_valid env method tok hdrs fuel resp.body resp [(req, resp)] c0
                v0 sent0 c1 hp ?_
              intro p hp2
              simp at hp2
              rw [hp2]
              exact hv
          | false =>
            rw [paginate_all_pages_false] at heq
            cases heq
            intro p hp2
            simp at hp2
            rw [hp2]
            exact hv
        · simp only [hv, hj, Bool.not_true, Bool.not_false, ite_false, ite_true] at heq
          cases heq
          intro p hp2
          simp at hp2
          rw [hp2]
          exact hv
      · simp only [hv] at heq
        simp at heq
  · intro f result resp sent count url r htok hnext hfetch hvalid
    rw [paginate_step _ _ _ _ _ _ _ _ _ _ hnext]
    match tok, htok with
    | some t, _ =>
      rw [raw_request_some]
      simp only [Bind.bind, Except.bind, hfetch, hvalid, Bool.not_false, Bool.true_or, ite_true]
    | none, htok =>
      have hg : ∃ g, env.getter = some g := by
        rcases htok with h | h
        · simp at h
        · exact Option.isSome_iff_exists.mp h
      obtain ⟨g, hg⟩ := hg
      rw [raw_request_getter env method url g hdrs count hg]
      simp only [Bind.bind, Except.bind, hfetch, hvalid, Bool.not_false, Bool.true_or, ite_true]

end QuartGithub

namespace QuartGithub

theorem paginate_step_merge_error (env : Env) (method : String) (tok : Option String)
    (hdrs : Option (List (String × String))) (f : Nat) (result : Json) (resp : Response)
    (sent : List (HttpRequest × Response)) (count : Nat) (url : String) (r : Response)
    (e : PyError)
    (htok : tok.isSome ∨ env.getter.isSome)
    (hnext : resp.next_link = some url)
    (hfetch : env.fetch method (get_resource_url env.base_url url) = r)
    (hvalid : is_valid_response r = true)
    (hjson : is_json_response r = true)
    (hmerge : mergePage r result r.body = .error e) :
    paginate env method true tok hdrs (f + 1) result resp sent count = .error e := by
  rw [paginate_step _ _ _ _ _ _ _ _ _ _ hnext]
  match tok, htok with
  | some t, _ =>
    rw [raw_request_some]
    simp only [Bind.bind, Except.bind, hfetch, hvalid, hjson, Bool.not_true, Bool.or_self,
      ite_false, hmerge]
    simp
  | none, htok =>
    have hg : ∃ g, env.getter = some g := by
      rcases htok with h | h
      · simp at h
      · exact Option.isSome_iff_exists.mp h
    obtain ⟨g, hg⟩ := hg
    rw [raw_request_getter env method url g hdrs count hg]
    simp only [Bind.bind, Except.bind, hfetch, hvalid, hjson, Bool.not_true, Bool.or_self,
      ite_false, hmerge]
    simp

theorem mergePage_malformed (r : Response) (result : Json)
    (hna : ∀ xs, r.body ≠ Json.arr xs)
    (hni : ∀ fs, r.body = Json.obj fs → jsonLookup fs "items" = none) :
    mergePage r result r.body = .error (.gitHubError r) := by
  cases hb : r.body with
  | arr xs => exact absurd hb (hna xs)
  | obj fs =>
    have := hni fs hb
    simp [mergePage, this]
  | null => simp [mergePage]
  | bool b => simp [mergePage]
  | num n => simp [mergePage]
  | str s => simp [mergePage]

theorem mergePage_mixed_items_into_arr (r : Response) (acc : List Json)
    (fs : List (String × Json)) (bi : Json)
    (hb : r.body = Json.obj fs) (hi : jsonLookup fs "items" = some bi) :
    mergePage r (.arr acc) r.body = .error .typeError := by
  simp [mergePage, hb, hi]

theorem mergePage_mixed_arr_into_obj (r : Response) (rf : List (String × Json))
    (xs : List Json) (hb : r.body = Json.arr xs) :
    mergePage r (.obj rf) r.body = .error .typeError := by
  simp [mergePage, hb]

end QuartGithub

namespace QuartGithub

/-- C10: over an all-pages request against a chain with `n` pagination
pages (`n + 1` outbound calls), when no explicit access token is supplied
the registered getter is invoked exactly once per outbound call — final
invocation count `n + 1`, and the i-th outgoing request carries
`token (g i)`, a fresh getter result per page; when an explicit token `t`
is supplied, every outgoing request carries `token t` and the getter is
never invoked (count stays 0). -/
theorem request_getter_invocations (env : Env) (method resource : String)
    (hdrs : Option (List (String × String))) (fuel : Nat) (g : Nat → String)
    (first : Response) (l0 : List Json) (ls : List (List Json))
    (hg : env.getter = some g)
    (hfirst : env.fetch method (get_resource_url env.base_url resource) = first)
    (hvalid : is_valid_response first = true)
    (hjson : is_json_response first = true)
    (hbody : first.body = .arr l0)
    (hchain : ArrChain env method first ls)
    (hfuel : ls.length ≤ fuel) :
    (∃ v sent, request env fuel method resource true none hdrs = .ok (v, sent, ls.length + 1) ∧
      sent.length = ls.length + 1 ∧
      ∀ (i : Nat) (p : HttpRequest × Response), sent[i]? = some p →
        assocFind p.1.headers "Authorization" = some ("token " ++ g i))
    ∧ (∀ t : String, ∃ v sent,
        request env fuel method resource true (some t) hdrs = .ok (v, sent, 0) ∧
        sent.length = ls.length + 1 ∧
        ∀ p ∈ sent, assocFind p.1.headers "Authorization" = some ("token " ++ t)) := by
  constructor
  · obtain ⟨ns, heq, hlen, hauth⟩ := paginate_arrchain_getter env method g hdrs hg hchain l0
      [(⟨method, get_resource_url env.base_url resource,
        setHeader (pop_headers hdrs) "Authorization" ("token " ++ g 0)⟩, first)] 1 fuel hfuel
    refine ⟨.json (.arr (l0 ++ ls.flatten)),
      [(⟨method, get_resource_url env.base_url resource,
        setHeader (pop_headers hdrs) "Authorization" ("token " ++ g 0)⟩, first)] ++ ns, ?_, ?_, ?_⟩
    · unfold request
      rw [raw_request_getter env method resource g hdrs 0 hg]
      simp only [Bind.bind, Except.bind, hfirst, hvalid, hjson, Bool.not_true, Bool.false_or,
        ite_false, ite_true, hbody]
      rw [heq]
      have harith : 1 + ls.length = ls.length + 1 := by omega
      rw [harith]
      rfl
    · simp [hlen]
    · intro i p hp
      cases i with
      | zero =>
        simp at hp
        subst hp
        simpa using assocFind_setHeader (pop_headers hdrs) "Authorization" ("token " ++ g 0)
      | succ j =>
        simp at hp
        have hja := hauth j p hp
        have harith : 1 + j = j + 1 := by omega
        rw [harith] at hja
        exact hja
  · intro t
    obtain ⟨ns, heq, hlen, hauth⟩ := paginate_arrchain_token env method t hdrs hchain l0
      [(⟨method, get_resource_url env.base_url resource,
        setHeader (pop_headers hdrs) "Authorization" ("token " ++ t)⟩, first)] 0 fuel hfuel
    refine ⟨.json (.arr (l0 ++ ls.flatten)),
      [(⟨method, get_resource_url env.base_url resource,
        setHeader (pop_headers hdrs) "Authorization" ("token " ++ t)⟩, first)] ++ ns, ?_, ?_, ?_⟩
    · unfold request
      rw [raw_request_some]
      simp only [Bind.bind, Except.bind, hfirst, hvalid, hjson, Bool.not_true, Bool.false_or,
        ite_false, ite_true, hbody]
      rw [heq]
      rfl
    · simp [hlen]
    · intro p hp
      rcases List.mem_append.mp hp with h | h
      · simp at h
        subst h
        simpa using assocFind_setHeader (pop_headers hdrs) "Authorization" ("token " ++ t)
      · exact hauth p h

end QuartGithub

namespace QuartGithub

theorem strToList_append (a b : String) : (a ++ b).toList = a.toList ++ b.toList := rfl

theorem plusMap_plain (xs : List Char) (h : ∀ c ∈ xs, plainChar c = true) :
    (xs.map fun c => if c = '+' then ' ' else c) = xs := by
  induction xs with
  | nil => rfl
  | cons c rest ih =>
    have hc := h c (List.mem_cons_self c rest)
    have hplus : ¬c = '+' := by
      intro e
      subst e
      simp [plainChar] at hc
    simp only [List.map_cons, if_neg hplus]
    rw [ih fun d hd => h d (List.mem_cons_of_mem c hd)]

theorem percentDecodeAux_plain (fuel : Nat) (xs : List Char)
    (h : ∀ c ∈ xs, plainChar c = true) : percentDecodeAux fuel xs = xs := by
  induction fuel generalizing xs with
  | zero => cases xs <;> rfl
  | succ fuel ih =>
    cases xs with
    | nil => rfl
    | cons c rest =>
      have hc := h c (List.mem_cons_self c rest)
      have hpct : ¬c = '%' := by
        intro e
        subst e
        simp [plainChar] at hc
      simp only [percentDecodeAux, if_neg hpct]
      rw [ih rest fun d hd => h d (List.mem_cons_of_mem c hd)]

theorem unquote_plus_plain (s : String) (h : plainStr s = true) : unquote_plus s = s := by
  have hall : ∀ c ∈ s.toList, plainChar c = true := by
    simpa [plainStr, List.all_eq_true] using h
  simp only [unquote_plus]
  rw [plusMap_plain s.toList hall, percentDecodeAux_plain _ _ hall]
  rfl

theorem splitOnChar_sep_free (sep : Char) (xs : List Char)
    (h : ∀ c ∈ xs, ¬c = sep) : splitOnChar sep xs = [xs] := by
  induction xs with
  | nil => rfl
  | cons c rest ih =>
    have hc : ¬c == sep := by simpa using h c (List.mem_cons_self c rest)
    simp only [splitOnChar, Bool.if_false_left]
    rw [ih fun d hd => h d (List.mem_cons_of_mem c hd)]
    simp [hc]

theorem splitOnChar_append (sep : Char) (xs ys : List Char)
    (h : ∀ c ∈ xs, ¬c = sep) :
    splitOnChar sep (xs ++ sep :: ys) = xs :: splitOnChar sep ys := by
  induction xs with
  | nil => simp [splitOnChar]
  | cons c rest ih =>
    have hc : ¬c == sep := by simpa using h c (List.mem_cons_self c rest)
    simp only [List.cons_append, splitOnChar]
    simp only [List.append_eq]
    rw [ih fun d hd => h d (List.mem_cons_of_mem c hd)]
    simp [hc]

theorem splitAtFirst_append (sep : Char) (k v : List Char)
    (h : ∀ c ∈ k, ¬c = sep) :
    splitAtFirst sep (k ++ sep :: v) = some (k, v) := by
  induction k with
  | nil => simp [splitAtFirst]
  | cons c rest ih =>
    have hc : ¬c == sep := by simpa using h c (List.mem_cons_self c rest)
    simp only [List.cons_append, splitAtFirst]
    simp only [List.append_eq]
    rw [ih fun d hd => h d (List.mem_cons_of_mem c hd)]
    simp [hc]

end QuartGithub

namespace QuartGithub

theorem strMk_toList (s : String) : String.mk s.toList = s := rfl

theorem plainChar_ne (c : Char) (h : plainChar c = true) :
    ¬c = '&' ∧ ¬c = '=' ∧ ¬c = '%' ∧ ¬c = '+' := by
  simp only [plainChar, Bool.not_eq_true', Bool.or_eq_false_iff, beq_eq_false_iff_ne,
    ne_eq] at h
  exact ⟨h.1.1.1, h.1.1.2, h.1.2, h.2⟩

theorem parse_qs_pairs_encode (fields : List (String × String))
    (h : ∀ p ∈ fields, plainStr p.1 = true ∧ plainStr p.2 = true ∧ strIsEmpty p.2 = false) :
    parse_qs_pairs (formEncodePlain fields) = fields := by
  induction fields with
  | nil => rfl
  | cons p rest ih =>
    obtain ⟨hk, hv, hne⟩ := h p (List.mem_cons_self p rest)
    have hrest := fun q hq => h q (List.mem_cons_of_mem p hq)
    have hkc : ∀ c ∈ p.1.toList, plainChar c = true := by
      simpa [plainStr, List.all_eq_true] using hk
    have hvc : ∀ c ∈ p.2.toList, plainChar c = true := by
      simpa [plainStr, List.all_eq_true] using hv
    have hchunk : (p.1 ++ "=" ++ p.2).toList = p.1.toList ++ '=' :: p.2.toList := by
      rw [strToList_append, strToList_append]
      simp
    have hnoamp : ∀ c ∈ p.1.toList ++ '=' :: p.2.toList, ¬c = '&' := by
      intro c hc
      rcases List.mem_append.mp hc with hm | hm
      · exact (plainChar_ne c (hkc c hm)).1
      · rcases List.mem_cons.mp hm with he | hm2
        · subst he; decide
        · exact (plainChar_ne c (hvc c hm2)).1
    have hnoeq : ∀ c ∈ p.1.toList, ¬c = '=' := fun c hc => (plainChar_ne c (hkc c hc)).2.1
    have hvne : p.2.toList.isEmpty = false := by
      simpa [strIsEmpty] using hne
    have hone : (match splitAtFirst '=' (p.1.toList ++ '=' :: p.2.toList) with
        | none => none
        | some (k, v) =>
          if v.isEmpty then none
          else some (unquote_plus (String.mk k), unquote_plus (String.mk v))) = some p := by
      rw [splitAtFirst_append '=' _ _ hnoeq]
      simp only [hvne, Bool.false_eq_true, if_false, ite_false]
      rw [strMk_toList, strMk_toList, unquote_plus_plain p.1 hk, unquote_plus_plain p.2 hv]
    cases rest with
    | nil =>
      show (splitOnChar '&' (p.1 ++ "=" ++ p.2).toList).filterMap _ = [p]
      rw [hchunk, splitOnChar_sep_free '&' _ hnoamp]
      simp only [List.filterMap]
      rw [hone]
    | cons q rest2 =>
      have hjoin : formEncodePlain (p :: q :: rest2)
          = (p.1 ++ "=" ++ p.2) ++ "&" ++ formEncodePlain (q :: rest2) := rfl
      have htl : (formEncodePlain (p :: q :: rest2)).toList
          = (p.1.toList ++ '=' :: p.2.toList) ++ '&' :: (formEncodePlain (q :: rest2)).toList := by
        rw [hjoin, strToList_append, strToList_append, hchunk]
        simp
      show (splitOnChar '&' (formEncodePlain (p :: q :: rest2)).toList).filterMap _ = p :: q :: rest2
      rw [htl, splitOnChar_append '&' _ _ hnoamp]
      simp only [List.filterMap]
      rw [hone]
      have := ih hrest
      unfold parse_qs_pairs at this
      rw [this]

end QuartGithub

namespace QuartGithub

/-- C3: the token extraction of the authorization-code exchange parses the
query-string-encoded response body and returns the `access_token` field:
the body `access_token=TOK123&token_type=bearer` yields `TOK123`, and any
plain form-encoded body without an `access_token` field yields `none`
(the extraction is a total function — no error is raised). -/
theorem handle_response_token_extraction :
    (handle_response_token "access_token=TOK123&token_type=bearer" = some "TOK123")
    ∧ ∀ fields : List (String × String),
        (∀ p ∈ fields, plainStr p.1 = true ∧ plainStr p.2 = true ∧ strIsEmpty p.2 = false) →
        assocFind fields "access_token" = none →
        handle_response_token (formEncodePlain fields) = none := by
  constructor
  · decide
  · intro fields h hnone
    unfold handle_response_token
    rw [parse_qs_pairs_encode fields h]
    exact hnone

/-- C4 (amended): during pagination, a decoded page that is neither a JSON
array nor an object with an `items` field aborts the loop with
`GitHubError` of that page (the accumulator is discarded); a page whose
shape differs from the accumulator's (items-object page into an array
accumulator, or array page into an object accumulator) also aborts the
loop with the accumulator discarded, but with a `TypeError`, not a
`GitHubError`. -/
theorem paginate_page_shape_errors (env : Env) (method : String) (tok : Option String)
    (hdrs : Option (List (String × String))) (f : Nat) (result : Json) (resp : Response)
    (sent : List (HttpRequest × Response)) (count : Nat) (url : String) (r : Response)
    (htok : tok.isSome ∨ env.getter.isSome)
    (hnext : resp.next_link = some url)
    (hfetch : env.fetch method (get_resource_url env.base_url url) = r)
    (hvalid : is_valid_response r = true)
    (hjson : is_json_response r = true) :
    ((∀ xs, r.body ≠ Json.arr xs) →
      (∀ fs, r.body = Json.obj fs → jsonLookup fs "items" = none) →
      paginate env method true tok hdrs (f + 1) result resp sent count
        = .error (.gitHubError r))
    ∧ (∀ acc fs bi, result = Json.arr acc → r.body = Json.obj fs →
      jsonLookup fs "items" = some bi →
      paginate env method true tok hdrs (f + 1) result resp sent count = .error .typeError)
    ∧ (∀ rf xs, result = Json.obj rf → r.body = Json.arr xs →
      paginate env method true tok hdrs (f + 1) result resp sent count = .error .typeError) := by
  refine ⟨?_, ?_, ?_⟩
  · intro hna hni
    exact paginate_step_merge_error env method tok hdrs f result resp sent count url r _
      htok hnext hfetch hvalid hjson (mergePage_malformed r result hna hni)
  · intro acc fs bi hres hb hi
    subst hres
    exact paginate_step_merge_error env method tok hdrs f (Json.arr acc) resp sent count url r _
      htok hnext hfetch hvalid hjson (mergePage_mixed_items_into_arr r acc fs bi hb hi)
  · intro rf xs hres hb
    subst hres
    exact paginate_step_merge_error env method tok hdrs f (Json.obj rf) resp sent count url r _
      htok hnext hfetch hvalid hjson (mergePage_mixed_arr_into_obj r rf xs hb)

/-- C4: counterexample to the claim as stated — a pagination chain whose
first page is an array and whose second page is an items-object does not
raise the API error (`GitHubError`); it raises a `TypeError`, because the
code subscripts the list accumulator with the string key `items`. -/
theorem mixed_shape_pagination_not_api_error :
    request mixedEnv 10 "GET" "/a" true (some "T") none = .error .typeError
    ∧ PyError.typeError ≠ PyError.gitHubError itemsPage := by
  exact ⟨rfl, fun h => PyError.noConfusion h⟩

/-- C5 (amended): `authorize` produces
`auth_url ++ "authorize?" ++ urlencode(params)` where the parameter
dictionary holds exactly `client_id` plus each of `scope`, `redirect_uri`,
`state` that was supplied truthy (non-null and non-empty) — no extra keys,
in fixed insertion order, each truthy key carrying the supplied value; a
supplied empty string is omitted (Python truthiness), which is the one
departure from the claim as stated. -/
theorem authorize_url_params_exact (cfg : Config) (scope redirect_uri state : Option String) :
    authorize_url cfg scope redirect_uri state
      = cfg.auth_url ++ "authorize?" ++ urlencode (authorize_params cfg scope redirect_uri state)
    ∧ (authorize_params cfg scope redirect_uri state).map Prod.fst
      = ["client_id"]
        ++ (if (optTruthy scope).isSome then ["scope"] else [])
        ++ (if (optTruthy redirect_uri).isSome then ["redirect_uri"] else [])
        ++ (if (optTruthy state).isSome then ["state"] else [])
    ∧ assocFind (authorize_params cfg scope redirect_uri state) "client_id" = some cfg.client_id
    ∧ assocFind (authorize_params cfg scope redirect_uri state) "scope" = optTruthy scope
    ∧ assocFind (authorize_params cfg scope redirect_uri state) "redirect_uri" = optTruthy redirect_uri
    ∧ assocFind (authorize_params cfg scope redirect_uri state) "state" = optTruthy state := by
  refine ⟨rfl, ?_, ?_, ?_, ?_, ?_⟩ <;>
  · rcases scope with _ | s <;> rcases redirect_uri with _ | r <;> rcases state with _ | st <;>
      simp only [authorize_params, optTruthy] <;>
      first
      | (by_cases hs : strIsEmpty s <;> by_cases hr : strIsEmpty r <;> by_cases hst : strIsEmpty st <;>
          simp [hs, hr, hst, assocFind])
      | (by_cases hs : strIsEmpty s <;> by_cases hr : strIsEmpty r <;> simp [hs, hr, assocFind])
      | (by_cases hs : strIsEmpty s <;> by_cases hst : strIsEmpty st <;> simp [hs, hst, assocFind])
      | (by_cases hr : strIsEmpty r <;> by_cases hst : strIsEmpty st <;> simp [hr, hst, assocFind])
      | (by_cases hs : strIsEmpty s <;> simp [hs, assocFind])
      | (by_cases hr : strIsEmpty r <;> simp [hr, assocFind])
      | (by_cases hst : strIsEmpty st <;> simp [hst, assocFind])
      | simp [assocFind]

/-- C5: counterexample to the claim as stated — `state` supplied as the
empty string (non-null) is omitted from the authorize URL: the parameter
dictionary has no `state` key and the URL carries only `client_id`. -/
theorem authorize_empty_state_omitted :
    assocFind (authorize_params exampleCfg none none (some "")) "state" = none
    ∧ authorize_url exampleCfg none none (some "")
      = "https://github.com/login/oauth/authorize?client_id=abc" := by
  constructor
  · decide
  · decide

/-- C6 (amended): URL resolution — a resource starting with `http://` or
`https://` (and only those two scheme prefixes) is used verbatim; a
resource starting with `/` is appended to the base with the base's last
character dropped (one slash when the base ends in `/`); any other
resource is appended directly; in particular, against the base
`https://api.github.com/`, `repos/x/y` and `/repos/x/y` resolve to the
same URL with no double slash, and an absolute `https` URL is kept
verbatim. -/
theorem get_resource_url_resolution (base resource : String) :
    (strStartsWith resource "http://" = true ∨ strStartsWith resource "https://" = true →
      get_resource_url base resource = resource)
    ∧ (strStartsWith resource "http://" = false → strStartsWith resource "https://" = false →
      strStartsWith resource "/" = true →
      get_resource_url base resource = strDropLast base ++ resource)
    ∧ (strStartsWith resource "http://" = false → strStartsWith resource "https://" = false →
      strStartsWith resource "/" = false →
      get_resource_url base resource = base ++ resource)
    ∧ get_resource_url "https://api.github.com/" "repos/x/y" = "https://api.github.com/repos/x/y"
    ∧ get_resource_url "https://api.github.com/" "/repos/x/y" = "https://api.github.com/repos/x/y"
    ∧ get_resource_url "https://api.github.com/" "https://api.github.com/repos/x/y"
      = "https://api.github.com/repos/x/y" := by
  refine ⟨?_, ?_, ?_, by decide, by decide, by decide⟩
  · intro h
    rcases h with h | h <;> simp [get_resource_url, h]
  · intro h1 h2 h3
    simp [get_resource_url, h1, h2, h3]
  · intro h1 h2 h3
    simp [get_resource_url, h1, h2, h3]

/-- C6: counterexample to the claim as stated — a resource with the scheme
`ftp://` is absolute (starts with a scheme) but is not used verbatim: the
code only recognises `http://` and `https://`, so the `ftp` URL is
concatenated onto the base. -/
theorem get_resource_url_other_scheme_not_verbatim :
    get_resource_url "https://api.github.com/" "ftp://files.example/x"
      = "https://api.github.com/ftp://files.example/x"
    ∧ get_resource_url "https://api.github.com/" "ftp://files.example/x"
      ≠ "ftp://files.example/x" := by
  constructor
  · decide
  · decide

/-- C7: whatever headers the caller supplies, the outgoing request of
`raw_request` carries `Authorization: token t` where `t` is the explicitly
supplied access token when one is given (getter counter untouched), and
otherwise the registered getter's result (counter bumped by one). -/
theorem raw_request_authorization_header (env : Env) (method resource : String)
    (tok : Option String) (hdrs : Option (List (String × String))) (count : Nat)
    (resp : Response) (req : HttpRequest) (c : Nat)
    (h : raw_request env method resource tok hdrs count = .ok (resp, req, c)) :
    (∀ t, tok = some t →
      assocFind req.headers "Authorization" = some ("token " ++ t) ∧ c = count)
    ∧ (∀ g, tok = none → env.getter = some g →
      assocFind req.headers "Authorization" = some ("token " ++ g count) ∧ c = count + 1) := by
  constructor
  · intro t ht
    subst ht
    rw [raw_request_some] at h
    cases h
    exact ⟨assocFind_setHeader (pop_headers hdrs) "Authorization" ("token " ++ t), rfl⟩
  · intro g ht hg
    subst ht
    rw [raw_request_getter env method resource g hdrs count hg] at h
    cases h
    exact ⟨assocFind_setHeader (pop_headers hdrs) "Authorization" ("token " ++ g count), rfl⟩

/-- C8: with no registered token getter and no explicit access token, the
default `get_access_token` raises `NotImplementedError`; the error
propagates through authorization-header resolution, `raw_request` and
`request`, failing the whole call (no retry — the call's result is that
error). -/
theorem token_source_unconfigured_error (env : Env) (method resource : String)
    (hdrs : Option (List (String × String))) (count fuel : Nat) (ap : Bool)
    (hg : env.getter = none) :
    get_access_token env.getter count = .error .notImplementedError
    ∧ get_authorization_header env.getter none count = .error .notImplementedError
    ∧ raw_request env method resource none hdrs count = .error .notImplementedError
    ∧ request env fuel method resource ap none hdrs = .error .notImplementedError := by
  refine ⟨?_, ?_, ?_, ?_⟩
  · rw [hg]
    rfl
  · rw [hg]
    rfl
  · exact raw_request_none_getter_none env method resource hdrs count hg
  · unfold request
    rw [raw_request_none_getter_none env method resource hdrs 0 hg]
    rfl

/-- C9: the authorized-callback wrapper exchanges the code exactly when a
`code` query parameter is present: with a code it issues the single token
POST (to `auth_url ++ "access_token"` with `code`, `client_id`,
`client_secret`) and hands the extracted token to the continuation; with
no code it issues no POST and hands the continuation `none`; in both
branches the continuation is applied exactly once to the resolved value
and no exception is raised (the wrapper is a total function whose
denied-authorization outcome is the value `none`). -/
theorem authorized_handler_contract {α : Type} (cfg : Config) (post : PostCall → String)
    (reqArgs : List (String × String)) (f : Option String → α) :
    (assocHas reqArgs "code" = true →
      authorized_decorated cfg post reqArgs f
        = (f (handle_response cfg post reqArgs).1, (handle_response cfg post reqArgs).2)
      ∧ (handle_response cfg post reqArgs).2
        = [⟨cfg.auth_url ++ "access_token",
            [("code", (assocFind reqArgs "code").getD ""),
             ("client_id", cfg.client_id),
             ("client_secret", cfg.client_secret)]⟩]
      ∧ (handle_response cfg post reqArgs).1
        = handle_response_token (post ⟨cfg.auth_url ++ "access_token",
            [("code", (assocFind reqArgs "code").getD ""),
             ("client_id", cfg.client_id),
             ("client_secret", cfg.client_secret)]⟩))
    ∧ (assocHas reqArgs "code" = false →
      authorized_decorated cfg post reqArgs f = (f none, [])) := by
  constructor
  · intro h
    refine ⟨?_, rfl, rfl⟩
    simp [authorized_decorated, h]
  · intro h
    simp [authorized_decorated, h]

end QuartGithub

namespace QuartGithub

/-- C1 at the spec's three-page example: pages `[1,2]`, `[3,4]`, `[5]`
chained by `next` links merge to `[1,2,3,4,5]`. -/
theorem request_all_pages_concat_example :
    is_valid_response page1 = true
    ∧ ∃ sent c, request chainEnv 2 "GET" "/items" true (some "T") none
        = .ok (.json (.arr [.num 1, .num 2, .num 3, .num 4, .num 5]), sent, c) := by
  refine ⟨rfl, ?_⟩
  have hchain : ArrChain chainEnv "GET" page1 [[Json.num 3, Json.num 4], [Json.num 5]] :=
    ArrChain.cons rfl rfl rfl rfl rfl
      (ArrChain.cons rfl rfl rfl rfl rfl (ArrChain.nil rfl))
  exact (request_all_pages_concat chainEnv "GET" "/items" (some "T") none 2 page1
    [Json.num 1, Json.num 2] [[Json.num 3, Json.num 4], [Json.num 5]]
    (Or.inl rfl) rfl rfl rfl rfl hchain (by decide)).1

/-- C2 at a concrete 404: the request fails with `GitHubError` carrying
the 404 response. -/
theorem request_invalid_status_raises_example :
    is_valid_response notFound = false
    ∧ request notFoundEnv 1 "GET" "/user" false (some "T") none
        = .error (.gitHubError notFound) := by
  refine ⟨rfl, ?_⟩
  exact (request_invalid_status_raises notFoundEnv "GET" "/user" (some "T") none 1).1
    false notFound (Or.inl rfl) rfl rfl

/-- C3 at a concrete denial body: `error=denied` carries no
`access_token`, so extraction yields `none`. -/
theorem handle_response_token_extraction_example :
    assocFind [("error", "denied")] "access_token" = none
    ∧ handle_response_token (formEncodePlain [("error", "denied")]) = none := by
  refine ⟨rfl, ?_⟩
  exact handle_response_token_extraction.2 [("error", "denied")] (by decide) rfl

/-- C4 at the mixed-shape chain: merging an items-object page into an
array accumulator aborts the loop with a `TypeError`. -/
theorem paginate_page_shape_errors_example :
    firstArrayPage.next_link = some "https://api.github.com/more"
    ∧ paginate mixedEnv "GET" true (some "T") none 1 (.arr [.num 1]) firstArrayPage [] 0
        = .error .typeError := by
  refine ⟨rfl, ?_⟩
  exact (paginate_page_shape_errors mixedEnv "GET" (some "T") none 0 (.arr [.num 1])
    firstArrayPage [] 0 "https://api.github.com/more" itemsPage
    (Or.inl rfl) rfl rfl rfl rfl).2.1
    [.num 1] [("items", .arr [.num 2])] (.arr [.num 2]) rfl rfl rfl

/-- C6 at the base `https://api.github.com/`: a leading-slash resource is
joined by dropping the base's trailing slash. -/
theorem get_resource_url_resolution_example :
    strStartsWith "/repos/x/y" "/" = true
    ∧ get_resource_url "https://api.github.com/" "/repos/x/y"
        = strDropLast "https://api.github.com/" ++ "/repos/x/y" := by
  refine ⟨rfl, ?_⟩
  exact (get_resource_url_resolution "https://api.github.com/" "/repos/x/y").2.1 rfl rfl rfl

/-- C7 at a concrete call with caller-supplied headers: the outgoing
request carries the explicit token's `Authorization` header. -/
theorem raw_request_authorization_header_example :
    raw_request noGetterEnv "GET" "repos/x/y" (some "T")
        (some [("Accept", "application/vnd.github+json")]) 5
      = .ok (page3, ⟨"GET", "https://api.github.com/repos/x/y",
          [("Accept", "application/vnd.github+json"), ("Authorization", "token T")]⟩, 5)
    ∧ assocFind [("Accept", "application/vnd.github+json"), ("Authorization", "token T")]
        "Authorization" = some "token T" := by
  refine ⟨rfl, ?_⟩
  have h := (raw_request_authorization_header noGetterEnv "GET" "repos/x/y" (some "T")
    (some [("Accept", "application/vnd.github+json")]) 5 page3
    ⟨"GET", "https://api.github.com/repos/x/y",
      [("Accept", "application/vnd.github+json"), ("Authorization", "token T")]⟩ 5 rfl).1 "T" rfl
  exact h.1

/-- C8 at a concrete client with no getter: the call fails with the
`NotImplementedError` of the default token source. -/
theorem token_source_unconfigured_error_example :
    noGetterEnv.getter = none
    ∧ request noGetterEnv 1 "GET" "/user" false none none = .error .notImplementedError := by
  refine ⟨rfl, ?_⟩
  exact (token_source_unconfigured_error noGetterEnv "GET" "/user" none 0 1 false rfl).2.2.2

/-- C9 at a concrete callback request carrying `code=KODE`: the wrapper
issues the single token POST and hands the continuation the extracted
token `asdf`. -/
theorem authorized_handler_contract_example :
    assocHas [("code", "KODE")] "code" = true
    ∧ authorized_decorated exampleCfg examplePost [("code", "KODE")] (fun o => o)
        = (some "asdf", [⟨"https://github.com/login/oauth/access_token",
            [("code", "KODE"), ("client_id", "abc"), ("client_secret", "SEKRET")]⟩]) := by
  refine ⟨rfl, ?_⟩
  have h := (authorized_handler_contract exampleCfg examplePost [("code", "KODE")]
    (fun o => o)).1 rfl
  exact h.1

/-- C10 at the three-page chain with a registered getter and no explicit
token: three outbound calls, final getter-invocation count 3. -/
theorem request_getter_invocations_example :
    page3.next_link = none
    ∧ ∃ v sent, request chainEnv 2 "GET" "/items" true none none = .ok (v, sent, 3)
        ∧ sent.length = 3 := by
  refine ⟨rfl, ?_⟩
  have hchain : ArrChain chainEnv "GET" page1 [[Json.num 3, Json.num 4], [Json.num 5]] :=
    ArrChain.cons rfl rfl rfl rfl rfl
      (ArrChain.cons rfl rfl rfl rfl rfl (ArrChain.nil rfl))
  obtain ⟨v, sent, heq, hlen, -⟩ := (request_getter_invocations chainEnv "GET" "/items" none 2
    (fun i => String.mk (List.replicate (i + 1) 'g')) page1 [Json.num 1, Json.num 2]
    [[Json.num 3, Json.num 4], [Json.num 5]] rfl rfl rfl rfl rfl hchain (by decide)).1
  exact ⟨v, sent, heq, hlen⟩

end QuartGithub
